import Mathlib

/-!
Shallow embedding of the witness-preparation core of the rollup prover
pipeline: the per-size block queues and prover-data pool
(`BlockSizedOperationsQueue`, `ProversDataPool`) and the block replay
pipeline (`build_prover_data`) from `src/core/server/src/prover_server/pool.rs`.

External collaborators (the storage backend, the per-operation circuit
witness math of the `circuit` crate, and the `WitnessBuilder` of
`circuit::witness::utils`) are not part of this repository's sources; they
are modelled as an explicit environment of deterministic functions
(`CircuitEnv`, `Storage`), or, where the spec describes their behaviour,
modelled from the spec (marked in doc comments).
-/

set_option maxRecDepth 20000

namespace ProverServer

/-! ### Definitions: the data model, the per-size queues and pool, the
replay engine, and the concrete collaborator instances used by the
witnesses and counterexamples. -/

/-- A block header as used by `pool.rs`: `block_number`, `fee_account`,
`new_root_hash` and the declared size class `smallest_block_size()`
(modelled as a field; the method lives in the external `models` crate). -/
structure Block where
  block_number : Nat
  fee_account : Nat
  new_root_hash : Nat
  smallest_block_size : Nat
  deriving Repr, DecidableEq

/-- A committed operation (`models::Operation`): only its `block` field is
used by `pool.rs`. -/
structure Operation where
  block : Block
  deriving Repr, DecidableEq

/-- The `i64 -> usize` cast `limit as usize` in
`take_next_commits_if_needed`: two's-complement reinterpretation of an
`i64` as a 64-bit unsigned value. -/
def usizeOfI64 (i : Int) : Nat :=
  (i % ((2 : Int) ^ 64)).toNat

/-- `BlockSizedOperationsQueue`: FIFO backlog of committed blocks of one
size class plus the `last_loaded_block` cursor. -/
structure BlockSizedOperationsQueue where
  operations : List Operation
  last_loaded_block : Nat
  block_size : Nat
  deriving Repr, DecidableEq

/-- `BlockSizedOperationsQueue::new(block_size)`. -/
def BlockSizedOperationsQueue.mkNew (block_size : Nat) : BlockSizedOperationsQueue :=
  { operations := [], last_loaded_block := 0, block_size := block_size }

/-- The storage collaborator's interface used by the queue: one refill call
`load_unverified_commits_after_block(block_size, after, limit)`. -/
structure QueueStorage where
  load_unverified_commits_after_block : Nat → Nat → Int → Except String (List Operation)

/-- `BlockSizedOperationsQueue::take_next_commits_if_needed`: if the backlog
length is below `limit as usize`, load commits after `last_loaded_block`,
append them, and set `last_loaded_block` to the back element's block number
(if the deque is nonempty). Storage errors are surfaced. -/
def BlockSizedOperationsQueue.take_next_commits_if_needed
    (st : QueueStorage) (limit : Int) (q : BlockSizedOperationsQueue) :
    Except String BlockSizedOperationsQueue :=
  if q.operations.length < usizeOfI64 limit then
    match st.load_unverified_commits_after_block q.block_size q.last_loaded_block limit with
    | .error e => .error ("failed to read commit operations: " ++ e)
    | .ok ops =>
        let ops' := q.operations ++ ops
        let llb :=
          match ops'.getLast? with
          | some op => op.block.block_number
          | none => q.last_loaded_block
        .ok { q with operations := ops', last_loaded_block := llb }
  else
    .ok q

/-- An account leaf (`models::circuit::account::CircuitAccount`): per-token
balances, nonce and public-key hash, per the spec's data model. Balance
amounts are naturals. -/
structure CircuitAccount where
  balances : Nat → Nat
  nonce : Nat
  pubKeyHash : Nat

/-- The default (empty) leaf of the sparse account tree. -/
def CircuitAccount.empty : CircuitAccount :=
  { balances := fun _ => 0, nonce := 0, pubKeyHash := 0 }

/-- `CircuitAccountTree`: a fixed-depth sparse Merkle-style index from
account id to account state, modelled as a total map whose default leaves
are empty accounts. The authenticated root hash is an opaque collaborator
function (`CircuitEnv.root_hash`). -/
abbrev CircuitAccountTree := Nat → CircuitAccount

/-- `CircuitAccountTree::insert(account_id, circuit_account)`. -/
def CircuitAccountTree.insert (t : CircuitAccountTree) (id : Nat) (a : CircuitAccount) :
    CircuitAccountTree :=
  fun i => if i = id then a else t i

/-- Add `amt` to account `id`'s balance of token `tok` (used by the
spec-modelled fee settlement, §4.2 step 7). -/
def CircuitAccountTree.addBalance (t : CircuitAccountTree) (id tok amt : Nat) :
    CircuitAccountTree :=
  fun i =>
    if i = id then
      { t id with balances := fun tk => if tk = tok then (t id).balances tk + amt
                                        else (t id).balances tk }
    else t i

/-- A transaction signature as read by `pool.rs`
(`tx.signature.signature`, `tx.signature.pub_key`): the raw signature is an
opaque handle serialized by the external collaborator. -/
structure TxSignature where
  sig : Nat
  pub_key : Nat
  deriving Repr, DecidableEq

/-- Modelled from the spec: the shared field shape of the signed
transactions (`Transfer`, `TransferToNew`, `Withdraw`, `Close`) as accessed
by `pool.rs`: `tx.token`, `tx.fee`, `tx.signature`, `tx.get_bytes()` (the
transaction types live in the external `models` crate; the spec says each
fee-bearing variant carries a fee amount and token). -/
structure SignedTx where
  token : Nat
  fee : Nat
  signature : TxSignature
  bytes : List Nat
  deriving Repr, DecidableEq

/-- `FullExitOp` as read by `pool.rs`: only `withdraw_amount.is_some()` is
inspected; the rest is an opaque payload. -/
structure FullExitData where
  withdraw_amount : Option Nat
  payload : Nat
  deriving Repr, DecidableEq

/-- The closed set of ledger operation variants (`models::node::FranklinOp`)
dispatched over in `build_prover_data`. Opaque payloads stand for the
transaction data that only the external circuit functions look at. -/
inductive FranklinOp where
  | Deposit (deposit : Nat)
  | Transfer (tx : SignedTx)
  | TransferToNew (tx : SignedTx)
  | Withdraw (tx : SignedTx)
  | Close (tx : SignedTx)
  | FullExit (fe : FullExitData)
  | ChangePubKeyOffchain (c : Nat)
  | Noop (n : Nat)
  deriving Repr, DecidableEq

/-- A circuit operation slot, opaque to `pool.rs` (produced by the external
`calculate_*_operations_from_witness` functions). -/
abbrev CircuitOp := Nat

/-- The tuple returned by `prepare_sig_data`: three signature-message
digests, a signature-validity witness and the signer's packed key bits —
all opaque to `pool.rs`. -/
structure SigDataParts where
  first_sig_msg : Nat
  second_sig_msg : Nat
  third_sig_msg : Nat
  signature_data : Nat
  signer_packed_key_bits : Nat
  deriving Repr, DecidableEq

/-- `plasma::state::CollectedFee`: a (token, amount) fee record. -/
structure CollectedFee where
  token : Nat
  amount : Nat
  deriving Repr, DecidableEq

/-- The external circuit collaborators consumed by `build_prover_data` as
opaque deterministic functions (spec §1: "the low-level per-operation-type
circuit math … consumed here as an opaque, deterministic function"). The
witness value each `apply_*_tx` returns is an opaque handle from which the
`calculate_*` functions and `get_pubdata` derive circuit slots and
public-data bits. -/
structure CircuitEnv where
  serialize_packed : Nat → Except String (List Nat)
  prepare_sig_data : List Nat → List Nat → Nat → Except String SigDataParts
  apply_deposit_tx : CircuitAccountTree → Nat → CircuitAccountTree × Nat
  calculate_deposit_operations : Nat → List CircuitOp
  deposit_pubdata : Nat → List Bool
  apply_transfer_tx : CircuitAccountTree → SignedTx → CircuitAccountTree × Nat
  calculate_transfer_operations : Nat → SigDataParts → List CircuitOp
  transfer_pubdata : Nat → List Bool
  apply_transfer_to_new_tx : CircuitAccountTree → SignedTx → CircuitAccountTree × Nat
  calculate_transfer_to_new_operations : Nat → SigDataParts → List CircuitOp
  transfer_to_new_pubdata : Nat → List Bool
  apply_withdraw_tx : CircuitAccountTree → SignedTx → CircuitAccountTree × Nat
  calculate_withdraw_operations : Nat → SigDataParts → List CircuitOp
  withdraw_pubdata : Nat → List Bool
  apply_close_account_tx : CircuitAccountTree → SignedTx → CircuitAccountTree × Nat
  calculate_close_account_operations : Nat → SigDataParts → List CircuitOp
  close_account_pubdata : Nat → List Bool
  apply_full_exit_tx : CircuitAccountTree → FullExitData → Bool → CircuitAccountTree × Nat
  calculate_full_exit_operations : Nat → List CircuitOp
  full_exit_pubdata : Nat → List Bool
  apply_change_pubkey_offchain_tx : CircuitAccountTree → Nat → CircuitAccountTree × Nat
  calculate_change_pubkey_offchain : Nat → List CircuitOp
  change_pubkey_pubdata : Nat → List Bool
  root_hash : CircuitAccountTree → Nat
  pubdata_commitment_hash : List Bool → Nat
  noop_operation : CircuitOp
  audit_path : CircuitAccountTree → Nat → Nat
  account_witness : CircuitAccountTree → Nat → Nat

/-- The mutable state of the `for op in ops` loop of `build_prover_data`:
the live account tree plus the accumulating `operations`, `pub_data` and
`fees` vectors. -/
structure ReplayState where
  tree : CircuitAccountTree
  operations : List CircuitOp
  pub_data : List Bool
  fees : List CollectedFee

/-- One iteration of the dispatch loop of `build_prover_data`
(`pool.rs` lines 197–385): apply the operation to the tree, unpack and
prepare signature data where the variant is signed (surfacing failures),
extend the circuit-operation and public-data accumulators, and record a
`CollectedFee` for the fee-bearing variants (`Transfer`, `TransferToNew`,
`Withdraw`). `Noop` contributes nothing. -/
def replayOp (env : CircuitEnv) (s : ReplayState) : FranklinOp → Except String ReplayState
  | .Deposit d =>
      let p := env.apply_deposit_tx s.tree d
      .ok { s with tree := p.1,
                   operations := s.operations ++ env.calculate_deposit_operations p.2,
                   pub_data := s.pub_data ++ env.deposit_pubdata p.2 }
  | .Transfer tx =>
      let p := env.apply_transfer_tx s.tree tx
      match env.serialize_packed tx.signature.sig with
      | .error e => .error ("failed to pack transaction signature " ++ e)
      | .ok sig_packed =>
          match env.prepare_sig_data sig_packed tx.bytes tx.signature.pub_key with
          | .error e => .error e
          | .ok parts =>
              .ok { tree := p.1,
                    operations := s.operations ++ env.calculate_transfer_operations p.2 parts,
                    pub_data := s.pub_data ++ env.transfer_pubdata p.2,
                    fees := s.fees ++ [⟨tx.token, tx.fee⟩] }
  | .TransferToNew tx =>
      let p := env.apply_transfer_to_new_tx s.tree tx
      match env.serialize_packed tx.signature.sig with
      | .error e => .error ("failed to pack transaction signature " ++ e)
      | .ok sig_packed =>
          match env.prepare_sig_data sig_packed tx.bytes tx.signature.pub_key with
          | .error e => .error e
          | .ok parts =>
              .ok { tree := p.1,
                    operations := s.operations ++ env.calculate_transfer_to_new_operations p.2 parts,
                    pub_data := s.pub_data ++ env.transfer_to_new_pubdata p.2,
                    fees := s.fees ++ [⟨tx.token, tx.fee⟩] }
  | .Withdraw tx =>
      let p := env.apply_withdraw_tx s.tree tx
      match env.serialize_packed tx.signature.sig with
      | .error e => .error ("failed to pack transaction signature " ++ e)
      | .ok sig_packed =>
          match env.prepare_sig_data sig_packed tx.bytes tx.signature.pub_key with
          | .error e => .error e
          | .ok parts =>
              .ok { tree := p.1,
                    operations := s.operations ++ env.calculate_withdraw_operations p.2 parts,
                    pub_data := s.pub_data ++ env.withdraw_pubdata p.2,
                    fees := s.fees ++ [⟨tx.token, tx.fee⟩] }
  | .Close tx =>
      let p := env.apply_close_account_tx s.tree tx
      match env.serialize_packed tx.signature.sig with
      | .error e => .error ("failed to pack signature: " ++ e)
      | .ok sig_packed =>
          match env.prepare_sig_data sig_packed tx.bytes tx.signature.pub_key with
          | .error e => .error e
          | .ok parts =>
              .ok { s with tree := p.1,
                           operations :=
                             s.operations ++ env.calculate_close_account_operations p.2 parts,
                           pub_data := s.pub_data ++ env.close_account_pubdata p.2 }
  | .FullExit fe =>
      let success := fe.withdraw_amount.isSome
      let p := env.apply_full_exit_tx s.tree fe success
      .ok { s with tree := p.1,
                   operations := s.operations ++ env.calculate_full_exit_operations p.2,
                   pub_data := s.pub_data ++ env.full_exit_pubdata p.2 }
  | .ChangePubKeyOffchain c =>
      let p := env.apply_change_pubkey_offchain_tx s.tree c
      .ok { s with tree := p.1,
                   operations := s.operations ++ env.calculate_change_pubkey_offchain p.2,
                   pub_data := s.pub_data ++ env.change_pubkey_pubdata p.2 }
  | .Noop _ => .ok s

/-- The whole dispatch loop, in operation order; the first failing
iteration aborts the replay with its error. -/
def replayAll (env : CircuitEnv) : List FranklinOp → ReplayState → Except String ReplayState
  | [], s => .ok s
  | op :: rest, s =>
      match replayOp env s op with
      | .error e => .error e
      | .ok s' => replayAll env rest s'

/-- The storage collaborator's interface used by `build_prover_data`:
`load_committed_state(Some(n))` (only the account list is used) and
`get_block_operations(n)`. -/
structure Storage where
  load_committed_state : Nat → Except String (List (Nat × CircuitAccount))
  get_block_operations : Nat → Except String (List FranklinOp)

/-- Materialize the committed snapshot into the account tree: a fresh tree
with one insert per stored account (`pool.rs` lines 175–179). -/
def buildAccountTree (accounts : List (Nat × CircuitAccount)) : CircuitAccountTree :=
  accounts.foldl (fun t p => t.insert p.1 p.2) (fun _ => CircuitAccount.empty)

/-- The replay stage of `build_prover_data`, up to the end of the dispatch
loop: the loaded pre-block tree (`tree0`, whose root is `old_root`) and the
final loop state. -/
structure Staged where
  tree0 : CircuitAccountTree
  replayed : ReplayState

/-- `build_prover_data` up to the end of the dispatch loop: load the
snapshot at `block_number - 1` (errors mapped to "failed to load commited
state"), load the block's operations (errors mapped to "failed to get block
operations"), replay them from the empty accumulators. -/
def stageReplay (env : CircuitEnv) (st : Storage) (commit_operation : Operation) :
    Except String Staged :=
  match st.load_committed_state (commit_operation.block.block_number - 1) with
  | .error e => .error ("failed to load commited state: " ++ e)
  | .ok accounts =>
      let tree0 := buildAccountTree accounts
      match st.get_block_operations commit_operation.block.block_number with
      | .error e => .error ("failed to get block operations " ++ e)
      | .ok ops =>
          match replayAll env ops { tree := tree0, operations := [], pub_data := [], fees := [] } with
          | .error e => .error e
          | .ok s => .ok { tree0 := tree0, replayed := s }

/-- Modelled from the spec (§4.2 step 6; `WitnessBuilder::
extend_pubdata_with_noops` of `circuit::witness::utils` is not under
`src/`): pad the public-data stream with no-op filler up to exactly
`64 × block_size` entries (no entry is removed if it is already longer). -/
def paddedPubData (block_size : Nat) (s : ReplayState) : List Bool :=
  s.pub_data ++ List.replicate (64 * block_size - s.pub_data.length) false

/-- Modelled from the spec (§4.2 step 6): pad the circuit-operation
sequence with no-op slots up to exactly `block_size` entries. -/
def paddedOperations (env : CircuitEnv) (block_size : Nat) (s : ReplayState) : List CircuitOp :=
  s.operations ++ List.replicate (block_size - s.operations.length) env.noop_operation

/-- Modelled from the spec (§4.2 step 7; `WitnessBuilder::collect_fees` is
not under `src/`): settle each collected (token, amount) fee into the
fee-collecting account's balance inside the tree. -/
def collect_fees_tree (tree : CircuitAccountTree) (fee_account : Nat)
    (fees : List CollectedFee) : CircuitAccountTree :=
  fees.foldl (fun t f => t.addBalance fee_account f.token f.amount) tree

/-- The root hash recomputed after replaying all operations and settling
fees (`witness_accum.root_after_fees`). -/
def rootAfterFees (env : CircuitEnv) (commit_operation : Operation) (stg : Staged) : Nat :=
  env.root_hash
    (collect_fees_tree stg.replayed.tree commit_operation.block.fee_account stg.replayed.fees)

/-- The outcome of `build_prover_data` as observed by its caller: a
returned `Ok` value, a returned `Err` string, or a process abort
(`assert_eq!` / `expect` panic). -/
inductive BuildOutcome (α : Type) where
  | ok (a : α)
  | err (e : String)
  | fatal (e : String)

/-- `prover::prover_data::ProverData`: the exact shape the downstream proof
generator consumes. `validator_address` is the field-element encoding of
the fee account id, modelled as the id itself. -/
structure ProverData where
  public_data_commitment : Nat
  old_root : Nat
  new_root : Nat
  validator_address : Nat
  operations : List CircuitOp
  validator_balances : Nat → Nat
  validator_audit_path : Nat
  validator_account : Nat

/-- The tail of `build_prover_data` after the dispatch loop (`pool.rs`
lines 387–411): batch-append and pad the accumulators, assert the two
padded lengths (abort on mismatch), settle fees, assert
`root_after_fees == new_root_hash` (abort on mismatch), compute the
public-data commitment, assemble `ProverData`. -/
def finishBuild (env : CircuitEnv) (commit_operation : Operation) (stg : Staged) :
    BuildOutcome ProverData :=
  if (paddedPubData commit_operation.block.smallest_block_size stg.replayed).length
      ≠ 64 * commit_operation.block.smallest_block_size then
    .fatal "assertion failed: witness_accum.pubdata.len() == 64 * block_size"
  else if (paddedOperations env commit_operation.block.smallest_block_size stg.replayed).length
      ≠ commit_operation.block.smallest_block_size then
    .fatal "assertion failed: witness_accum.operations.len() == block_size"
  else if rootAfterFees env commit_operation stg ≠ commit_operation.block.new_root_hash then
    .fatal "assertion failed: root_after_fees == new_root_hash"
  else
    .ok { public_data_commitment :=
            env.pubdata_commitment_hash
              (paddedPubData commit_operation.block.smallest_block_size stg.replayed)
          old_root := env.root_hash stg.tree0
          new_root := commit_operation.block.new_root_hash
          validator_address := commit_operation.block.fee_account
          operations := paddedOperations env commit_operation.block.smallest_block_size stg.replayed
          validator_balances :=
            ((collect_fees_tree stg.replayed.tree commit_operation.block.fee_account
                stg.replayed.fees) commit_operation.block.fee_account).balances
          validator_audit_path :=
            env.audit_path
              (collect_fees_tree stg.replayed.tree commit_operation.block.fee_account
                stg.replayed.fees)
              commit_operation.block.fee_account
          validator_account :=
            env.account_witness
              (collect_fees_tree stg.replayed.tree commit_operation.block.fee_account
                stg.replayed.fees)
              commit_operation.block.fee_account }

/-- `build_prover_data(storage, commit_operation)`: replay stage then
finalization; `Err` results of the stages are returned to the caller,
invariant violations abort. -/
def build_prover_data (env : CircuitEnv) (st : Storage) (commit_operation : Operation) :
    BuildOutcome ProverData :=
  match stageReplay env st commit_operation with
  | .error e => .err e
  | .ok stg => finishBuild env commit_operation stg

/-- `BlockSizedOperationsQueue::prepare_next_if_any`, with the replay
pipeline abstracted as the `build` argument: pop the front of the backlog
(or return `none` if empty) and run the replay on it. The pop happens
before the replay, so the block stays removed whatever `build` returns;
a replay `Err` is propagated, a replay abort aborts. -/
def prepare_next_if_any (build : Operation → BuildOutcome ProverData)
    (q : BlockSizedOperationsQueue) :
    BuildOutcome (Option (Nat × ProverData)) × BlockSizedOperationsQueue :=
  match q.operations with
  | [] => (.ok none, q)
  | op :: rest =>
      let q' := { q with operations := rest }
      match build op with
      | .ok pd => (.ok (some (op.block.block_number, pd)), q')
      | .err e => (.err e, q')
      | .fatal e => (.fatal e, q')

/-- `ProversDataPool`: the shared refill `limit`, one queue per supported
block-size class (a `HashMap` in the source, modelled as its entry list in
iteration order), and the prepared cache `block number → ProverData`
(a `HashMap`, modelled by its lookup function). -/
structure ProversDataPool where
  limit : Int
  op_queues : List (Nat × BlockSizedOperationsQueue)
  prepared : Nat → Option ProverData

/-- `ProversDataPool::new(limit)` over the configured size classes
(`models::params::block_chunk_sizes()`, supplied as an argument since the
`models` crate is external configuration). -/
def ProversDataPool.mkNew (limit : Int) (block_chunk_sizes : List Nat) : ProversDataPool :=
  { limit := limit
    op_queues := block_chunk_sizes.map fun bs => (bs, BlockSizedOperationsQueue.mkNew bs)
    prepared := fun _ => none }

/-- `ProversDataPool::get(&self, block)`: read-only lookup in the prepared
cache (takes `&self` in the source, hence cannot modify the pool). -/
def ProversDataPool.get (p : ProversDataPool) (block : Nat) : Option ProverData :=
  p.prepared block

/-- `ProversDataPool::get` viewed as a call: the returned value together
with the receiver after the call. `get` takes `&self` in the source, so
the receiver is returned unchanged; this makes the read-only access an
explicit part of the model. -/
def ProversDataPool.getCall (p : ProversDataPool) (block : Nat) :
    Option ProverData × ProversDataPool :=
  (p.prepared block, p)

/-- `ProversDataPool::clean_up(block)`: `self.prepared.remove(&block)`. -/
def ProversDataPool.clean_up (p : ProversDataPool) (block : Nat) : ProversDataPool :=
  { p with prepared := fun b => if b = block then none else p.prepared b }

/-- `HashMap::insert` on the prepared cache. -/
def insertPrepared (m : Nat → Option ProverData) (bn : Nat) (pd : ProverData) :
    Nat → Option ProverData :=
  fun b => if b = bn then some pd else m b

/-- The loop body of `ProversDataPool::prepare_next`: walk the queue
entries in iteration order; for each, `prepare_next_if_any`; insert a
produced `(block_number, ProverData)` into the prepared cache; a replay
`Err` stops the walk there (`?`), keeping the mutations already made. -/
def prepareNextGo (build : Operation → BuildOutcome ProverData) :
    List (Nat × BlockSizedOperationsQueue) → (Nat → Option ProverData) →
    BuildOutcome Unit × List (Nat × BlockSizedOperationsQueue) × (Nat → Option ProverData)
  | [], prepared => (.ok (), [], prepared)
  | (sz, q) :: rest, prepared =>
      match prepare_next_if_any build q with
      | (.ok none, q') =>
          let (r, qs, m) := prepareNextGo build rest prepared
          (r, (sz, q') :: qs, m)
      | (.ok (some (bn, pd)), q') =>
          let (r, qs, m) := prepareNextGo build rest (insertPrepared prepared bn pd)
          (r, (sz, q') :: qs, m)
      | (.err e, q') => (.err e, (sz, q') :: rest, prepared)
      | (.fatal e, q') => (.fatal e, (sz, q') :: rest, prepared)

/-- `ProversDataPool::prepare_next`: one pass over all size classes. -/
def ProversDataPool.prepare_next (build : Operation → BuildOutcome ProverData)
    (p : ProversDataPool) : BuildOutcome Unit × ProversDataPool :=
  let (r, qs, m) := prepareNextGo build p.op_queues p.prepared
  (r, { p with op_queues := qs, prepared := m })

/-- `ProversDataPool::take_next_commits_if_needed`: refill every queue with
the shared `limit`; the first storage error stops the pass, keeping the
refills already made. -/
def poolRefillGo (st : QueueStorage) (limit : Int) :
    List (Nat × BlockSizedOperationsQueue) →
    Except String Unit × List (Nat × BlockSizedOperationsQueue)
  | [] => (.ok (), [])
  | (sz, q) :: rest =>
      match q.take_next_commits_if_needed st limit with
      | .error e => (.error e, (sz, q) :: rest)
      | .ok q' =>
          let (r, qs) := poolRefillGo st limit rest
          (r, (sz, q') :: qs)

/-- `ProversDataPool::take_next_commits_if_needed` at the pool level. -/
def ProversDataPool.take_next_commits_if_needed (st : QueueStorage) (p : ProversDataPool) :
    Except String Unit × ProversDataPool :=
  let (r, qs) := poolRefillGo st p.limit p.op_queues
  (r, { p with op_queues := qs })

/-- A concrete empty pool used to instantiate hypothesis-bearing theorems. -/
def emptyPool : ProversDataPool :=
  ProversDataPool.mkNew 10 [6, 30]

/-- A concrete circuit environment: every collaborator succeeds and
produces empty circuit output, and the root hash is constantly `0`. -/
def envT : CircuitEnv :=
  { serialize_packed := fun _ => .ok []
    prepare_sig_data := fun _ _ _ => .ok ⟨0, 0, 0, 0, 0⟩
    apply_deposit_tx := fun t _ => (t, 0)
    calculate_deposit_operations := fun _ => []
    deposit_pubdata := fun _ => []
    apply_transfer_tx := fun t _ => (t, 0)
    calculate_transfer_operations := fun _ _ => []
    transfer_pubdata := fun _ => []
    apply_transfer_to_new_tx := fun t _ => (t, 0)
    calculate_transfer_to_new_operations := fun _ _ => []
    transfer_to_new_pubdata := fun _ => []
    apply_withdraw_tx := fun t _ => (t, 0)
    calculate_withdraw_operations := fun _ _ => []
    withdraw_pubdata := fun _ => []
    apply_close_account_tx := fun t _ => (t, 0)
    calculate_close_account_operations := fun _ _ => []
    close_account_pubdata := fun _ => []
    apply_full_exit_tx := fun t _ _ => (t, 0)
    calculate_full_exit_operations := fun _ => []
    full_exit_pubdata := fun _ => []
    apply_change_pubkey_offchain_tx := fun t _ => (t, 0)
    calculate_change_pubkey_offchain := fun _ => []
    change_pubkey_pubdata := fun _ => []
    root_hash := fun _ => 0
    pubdata_commitment_hash := fun _ => 0
    noop_operation := 0
    audit_path := fun _ _ => 0
    account_witness := fun _ _ => 0 }

/-- A concrete storage: an empty genesis snapshot and an empty block. -/
def stEmpty : Storage :=
  { load_committed_state := fun _ => .ok []
    get_block_operations := fun _ => .ok [] }

/-- A committed block of size class 2 whose committed root matches what
`envT` recomputes (`0`). -/
def opOk : Operation := ⟨⟨1, 0, 0, 2⟩⟩

/-- A committed block whose committed root (`1`) diverges from what `envT`
recomputes (`0`). -/
def opBadRoot : Operation := ⟨⟨1, 0, 1, 2⟩⟩

/-- The replay stage result for `stEmpty`: empty tree, empty accumulators. -/
def stgEmpty : Staged :=
  { tree0 := buildAccountTree []
    replayed := { tree := buildAccountTree [], operations := [], pub_data := [], fees := [] } }

/-- The `ProverData` that `build_prover_data envT stEmpty opOk` returns. -/
def pdOk : ProverData :=
  { public_data_commitment := 0
    old_root := 0
    new_root := 0
    validator_address := 0
    operations := [0, 0]
    validator_balances := fun _ => 0
    validator_audit_path := 0
    validator_account := 0 }

/-- A circuit environment whose deposit handler emits three circuit slots,
used to exhibit the fatal length-mismatch abort in a size-1 block. -/
def envWide : CircuitEnv :=
  { envT with calculate_deposit_operations := fun _ => [0, 0, 0] }

/-- A storage whose block 1 is a single deposit. -/
def stOneDeposit : Storage :=
  { load_committed_state := fun _ => .ok []
    get_block_operations := fun _ => .ok [.Deposit 0] }

/-- A committed block of size class 1. -/
def opSize1 : Operation := ⟨⟨1, 0, 0, 1⟩⟩

/-- The replay stage result for `envWide` on `stOneDeposit`. -/
def stgWide : Staged :=
  { tree0 := buildAccountTree []
    replayed := { tree := buildAccountTree [], operations := [0, 0, 0], pub_data := [], fees := [] } }

/-- The empty replay state over the empty snapshot. -/
def rsEmpty : ReplayState :=
  { tree := buildAccountTree [], operations := [], pub_data := [], fees := [] }

/-- A storage whose snapshot load fails. -/
def stLoadFail : Storage :=
  { load_committed_state := fun _ => .error "db down"
    get_block_operations := fun _ => .ok [] }

/-- A storage whose block-operation load fails. -/
def stOpsFail : Storage :=
  { load_committed_state := fun _ => .ok []
    get_block_operations := fun _ => .error "db down" }

/-- A signed transaction used in witnesses and counterexamples. -/
def txT : SignedTx := ⟨0, 5, ⟨0, 0⟩, []⟩

/-- An environment whose signature unpacking fails. -/
def envSigFail : CircuitEnv :=
  { envT with serialize_packed := fun _ => .error "bad sig" }

/-- An environment whose signature-data preparation fails. -/
def envPrepFail : CircuitEnv :=
  { envT with prepare_sig_data := fun _ _ _ => .error "bad sig data" }

/-- A storage whose block 1 is a single transfer. -/
def stOneTransfer : Storage :=
  { load_committed_state := fun _ => .ok []
    get_block_operations := fun _ => .ok [.Transfer txT] }

/-- A committed block numbered `n` in size class 6. -/
def opN (n : Nat) : Operation := ⟨⟨n, 0, 0, 6⟩⟩

/-- A size-6 queue holding one block, cursor at block 1. -/
def qC4 : BlockSizedOperationsQueue :=
  { operations := [opN 1], last_loaded_block := 1, block_size := 6 }

/-- A storage holding two eligible blocks after block 1. -/
def stC4 : QueueStorage :=
  { load_unverified_commits_after_block := fun _ _ _ => .ok [opN 2, opN 3] }

/-- One call made against a per-size queue: a refill (carrying the storage
response that call would receive, and the limit it was called with) or a
take-next. -/
inductive QueueEvent where
  | refill (response : Except String (List Operation)) (limit : Int)
  | takeNext

/-- A storage collaborator that answers one refill call with a fixed
response. -/
def oneShotStorage (response : Except String (List Operation)) : QueueStorage :=
  { load_unverified_commits_after_block := fun _ _ _ => response }

/-- The queue-state effect of one call: a refill runs
`take_next_commits_if_needed` against the response (a storage error leaves
the queue unchanged, as the source mutates nothing before surfacing it);
a take-next pops the front, which is exactly the queue effect of
`prepare_next_if_any` (see `prepare_next_if_any_queue_effect`). -/
def queueStep (q : BlockSizedOperationsQueue) : QueueEvent → BlockSizedOperationsQueue
  | .refill response limit =>
      match q.take_next_commits_if_needed (oneShotStorage response) limit with
      | .ok q' => q'
      | .error _ => q
  | .takeNext => { q with operations := q.operations.tail }

/-- Run a sequence of calls. -/
def runEvents (q : BlockSizedOperationsQueue) : List QueueEvent → BlockSizedOperationsQueue
  | [] => q
  | ev :: rest => runEvents (queueStep q ev) rest

/-- The storage contract of §6, relative to the queue state at call time: a
successful refill response holds only blocks strictly after the requested
cursor, in ascending order. -/
def goodEvent (q : BlockSizedOperationsQueue) : QueueEvent → Prop
  | .refill response _ => ∀ ops, response = .ok ops →
      (∀ o ∈ ops, q.last_loaded_block < o.block.block_number) ∧
      ops.Chain' (fun a b => a.block.block_number < b.block.block_number)
  | .takeNext => True

/-- A call sequence in which every refill response honors the storage
contract at the state it is issued in. -/
def ValidTrace (q : BlockSizedOperationsQueue) : List QueueEvent → Prop
  | [] => True
  | ev :: rest => goodEvent q ev ∧ ValidTrace (queueStep q ev) rest

/-- The structural invariant tying the cursor to the backlog: the back of
the backlog (when nonempty) is the block `last_loaded_block` points at. -/
def QueueLastInv (q : BlockSizedOperationsQueue) : Prop :=
  ∀ o, q.operations.getLast? = some o → o.block.block_number = q.last_loaded_block

/-- A concrete call trace: one refill that appends two blocks, then one
take-next. -/
def evsW : List QueueEvent := [.refill (.ok [opN 1, opN 2]) 10, .takeNext]

/-- A queue holding two blocks of size class 6. -/
def qTwo : BlockSizedOperationsQueue :=
  { operations := [opN 1, opN 2], last_loaded_block := 2, block_size := 6 }

/-- A replay that always fails with an error. -/
def buildFail : Operation → BuildOutcome ProverData := fun _ => .err "replay failed"

/-- A pool holding the two-block queue and an empty cache. -/
def poolTwo : ProversDataPool :=
  { limit := 10, op_queues := [(6, qTwo)], prepared := fun _ => none }

/-- A block numbered 2 in size class 30. -/
def opM : Operation := ⟨⟨2, 0, 0, 30⟩⟩

/-- A size-6 queue holding block 1. -/
def qA : BlockSizedOperationsQueue :=
  { operations := [opN 1], last_loaded_block := 1, block_size := 6 }

/-- A size-30 queue holding block 2. -/
def qB : BlockSizedOperationsQueue :=
  { operations := [opM], last_loaded_block := 2, block_size := 30 }

/-- A pool with two size classes, each holding one block. -/
def poolTC : ProversDataPool :=
  { limit := 10, op_queues := [(6, qA), (30, qB)], prepared := fun _ => none }

/-- A replay that always succeeds with `pdOk`. -/
def buildConst : Operation → BuildOutcome ProverData := fun _ => .ok pdOk

/-- The fee record one ledger operation pushes during the dispatch loop:
`Transfer`, `TransferToNew` and `Withdraw` push their (token, fee) pair;
every other variant — including `Close` — pushes nothing. -/
def opFee : FranklinOp → List CollectedFee
  | .Transfer tx => [⟨tx.token, tx.fee⟩]
  | .TransferToNew tx => [⟨tx.token, tx.fee⟩]
  | .Withdraw tx => [⟨tx.token, tx.fee⟩]
  | _ => []

/-- All fee records pushed by a block's operation list, in order. -/
def collectedFeesOf : List FranklinOp → List CollectedFee
  | [] => []
  | op :: rest => opFee op ++ collectedFeesOf rest

/-- The sum of the recorded fee amounts for one token. -/
def sumFeesFor : List CollectedFee → Nat → Nat
  | [], _ => 0
  | f :: rest, t => (if f.token = t then f.amount else 0) + sumFeesFor rest t

/-- Modelled from the spec (§4.2 step 5, *Deposit*: "apply credit to tree";
the deposit circuit code is not under `src/`): a concrete environment whose
deposit handler credits the deposited account — named by the payload — with
10 of token 0. -/
def envDep : CircuitEnv :=
  { envT with apply_deposit_tx := fun t d => (t.addBalance d 0 10, 0) }

/-- A storage whose block 1 is a deposit to account 3 followed by a
transfer carrying the fee pair (token 0, amount 5). -/
def stDepTransfer : Storage :=
  { load_committed_state := fun _ => .ok []
    get_block_operations := fun _ => .ok [.Deposit 3, .Transfer txT] }

/-- A storage whose block 1 is a single account-close carrying the fee
pair (token 0, amount 5). -/
def stOneClose : Storage :=
  { load_committed_state := fun _ => .ok []
    get_block_operations := fun _ => .ok [.Close txT] }

/-- A committed block of size class 1 whose fee account is 3. -/
def opCex : Operation := ⟨⟨1, 3, 0, 1⟩⟩

/-- The fee account's post-fee balance of one token as observed in a
successfully built `ProverData`. -/
def builtValidatorBalance (env : CircuitEnv) (st : Storage) (op : Operation) (t : Nat) :
    Option Nat :=
  match build_prover_data env st op with
  | .ok pd => some (pd.validator_balances t)
  | _ => none

/-- The replay stage result of the single-transfer block under `envT`. -/
def stgT : Staged :=
  { tree0 := buildAccountTree []
    replayed :=
      { tree := buildAccountTree [], operations := [], pub_data := [], fees := [⟨0, 5⟩] } }

/-! ### Theorems -/

/-- Everything the success of `finishBuild` guarantees: the two asserted
lengths hold, the recomputed post-fee root equals the committed root, and
the returned data carries the committed root and the padded operation
sequence. -/
theorem finishBuild_eq_ok {env : CircuitEnv} {cop : Operation} {stg : Staged} {pd : ProverData}
    (h : finishBuild env cop stg = .ok pd) :
    (paddedPubData cop.block.smallest_block_size stg.replayed).length
        = 64 * cop.block.smallest_block_size ∧
    (paddedOperations env cop.block.smallest_block_size stg.replayed).length
        = cop.block.smallest_block_size ∧
    rootAfterFees env cop stg = cop.block.new_root_hash ∧
    pd.new_root = cop.block.new_root_hash ∧
    pd.operations = paddedOperations env cop.block.smallest_block_size stg.replayed := by
  unfold finishBuild at h
  split_ifs at h with h1 h2 h3
  injection h with h
  subst h
  exact ⟨not_not.mp h1, not_not.mp h2, not_not.mp h3, rfl, rfl⟩

/-- A successful `build_prover_data` factors through a successful replay
stage and a successful finalization. -/
theorem build_eq_ok {env : CircuitEnv} {st : Storage} {op : Operation} {pd : ProverData}
    (h : build_prover_data env st op = .ok pd) :
    ∃ stg, stageReplay env st op = .ok stg ∧ finishBuild env op stg = .ok pd := by
  unfold build_prover_data at h
  cases hs : stageReplay env st op with
  | error e => rw [hs] at h; exact absurd h (by simp)
  | ok stg => rw [hs] at h; exact ⟨stg, rfl, h⟩

/-- When the replay stage succeeds, `finishBuild` either aborts on one of
its three checks or returns `ok`; if any check fails it aborts. -/
theorem finishBuild_fatal_of_check {env : CircuitEnv} {cop : Operation} {stg : Staged}
    (h : (paddedPubData cop.block.smallest_block_size stg.replayed).length
          ≠ 64 * cop.block.smallest_block_size ∨
         (paddedOperations env cop.block.smallest_block_size stg.replayed).length
          ≠ cop.block.smallest_block_size ∨
         rootAfterFees env cop stg ≠ cop.block.new_root_hash) :
    ∃ e, finishBuild env cop stg = .fatal e := by
  unfold finishBuild
  split_ifs with h1 h2 h3
  · exact ⟨_, rfl⟩
  · exact ⟨_, rfl⟩
  · exact ⟨_, rfl⟩
  · rcases h with h | h | h
    · exact absurd h h1
    · exact absurd h h2
    · exact absurd h h3

/-- **C1.** For every committed block on which `build_prover_data` returns
successfully, the root hash recomputed after replaying all operations and
settling fees (`root_after_fees`) equals the block's externally committed
new root hash, and the returned `ProverData` carries that committed root as
`new_root`; any divergence of the recomputed root is a fatal abort, never a
returned `ProverData`. -/
theorem C1_root_after_fees_matches_committed_root :
    ∀ (env : CircuitEnv) (st : Storage) (op : Operation),
      (∀ pd, build_prover_data env st op = .ok pd →
        ∃ stg, stageReplay env st op = .ok stg ∧
          rootAfterFees env op stg = op.block.new_root_hash ∧
          pd.new_root = op.block.new_root_hash) ∧
      (∀ stg, stageReplay env st op = .ok stg →
        rootAfterFees env op stg ≠ op.block.new_root_hash →
        ∃ e, build_prover_data env st op = .fatal e) := by
  intro env st op
  constructor
  · intro pd h
    obtain ⟨stg, hs, hf⟩ := build_eq_ok h
    obtain ⟨_, _, hroot, hnew, _⟩ := finishBuild_eq_ok hf
    exact ⟨stg, hs, hroot, hnew⟩
  · intro stg hs hroot
    obtain ⟨e, he⟩ := finishBuild_fatal_of_check (Or.inr (Or.inr hroot))
    exact ⟨e, by unfold build_prover_data; rw [hs]; exact he⟩

/-- **C2.** For every committed block on which `build_prover_data` returns
successfully, after the no-op padding step the operation sequence has
length exactly the block's declared size-class capacity and the public-data
stream has length exactly `64 ×` that capacity; a mismatch aborts instead
of producing a `ProverData`. -/
theorem C2_padded_lengths_exact :
    ∀ (env : CircuitEnv) (st : Storage) (op : Operation),
      (∀ pd, build_prover_data env st op = .ok pd →
        pd.operations.length = op.block.smallest_block_size ∧
        ∃ stg, stageReplay env st op = .ok stg ∧
          (paddedPubData op.block.smallest_block_size stg.replayed).length
            = 64 * op.block.smallest_block_size ∧
          (paddedOperations env op.block.smallest_block_size stg.replayed).length
            = op.block.smallest_block_size) ∧
      (∀ stg, stageReplay env st op = .ok stg →
        ((paddedPubData op.block.smallest_block_size stg.replayed).length
            ≠ 64 * op.block.smallest_block_size ∨
         (paddedOperations env op.block.smallest_block_size stg.replayed).length
            ≠ op.block.smallest_block_size) →
        ∃ e, build_prover_data env st op = .fatal e) := by
  intro env st op
  constructor
  · intro pd h
    obtain ⟨stg, hs, hf⟩ := build_eq_ok h
    obtain ⟨hpub, hops, _, _, hpd⟩ := finishBuild_eq_ok hf
    exact ⟨hpd ▸ hops, stg, hs, hpub, hops⟩
  · intro stg hs hmis
    have h' : _ ∨ _ ∨ rootAfterFees env op stg ≠ op.block.new_root_hash :=
      hmis.elim Or.inl (fun h => Or.inr (Or.inl h))
    obtain ⟨e, he⟩ := finishBuild_fatal_of_check h'
    exact ⟨e, by unfold build_prover_data; rw [hs]; exact he⟩

/-- **C9.** For every pool state and block number: calling `get` twice for
the same still-cached block number returns identical `ProverData` both
times and does not modify the pool (`get` takes `&self`); calling
`clean_up` for a block number and then `get` for that same block number
returns absent. -/
theorem C9_get_idempotent_cleanup_absent :
    ∀ (p : ProversDataPool) (block : Nat),
      (p.getCall block).2 = p ∧
      ((p.getCall block).2.getCall block).1 = (p.getCall block).1 ∧
      (p.clean_up block).get block = none := by
  intro p block
  refine ⟨rfl, rfl, ?_⟩
  simp [ProversDataPool.clean_up, ProversDataPool.get]

/-- **C10.** `clean_up(block)` removes at most the one prepared-cache entry
with that key and leaves everything else unchanged: the refill limit, every
per-size queue, and every other cached entry; for a block number not
present in the cache the pool is entirely unchanged. -/
theorem C10_clean_up_frame :
    ∀ (p : ProversDataPool) (block : Nat),
      (p.clean_up block).limit = p.limit ∧
      (p.clean_up block).op_queues = p.op_queues ∧
      (p.clean_up block).prepared block = none ∧
      (∀ b, b ≠ block → (p.clean_up block).prepared b = p.prepared b) ∧
      (p.prepared block = none → p.clean_up block = p) := by
  intro p block
  refine ⟨rfl, rfl, by simp [ProversDataPool.clean_up], ?_, ?_⟩
  · intro b hb
    simp [ProversDataPool.clean_up, hb]
  · intro h
    cases p with
    | mk limit op_queues prepared =>
        simp only [ProversDataPool.clean_up, ProversDataPool.mk.injEq, true_and]
        funext b
        by_cases hb : b = block
        · subst hb; simpa using h.symm
        · simp [hb]

theorem C10_clean_up_frame_witness :
    (emptyPool.clean_up 7).prepared 5 = emptyPool.prepared 5 ∧ emptyPool.clean_up 7 = emptyPool :=
  ⟨(C10_clean_up_frame emptyPool 7).2.2.2.1 5 (by decide),
   (C10_clean_up_frame emptyPool 7).2.2.2.2 rfl⟩

theorem C1_root_after_fees_matches_committed_root_witness :
    (∃ stg, stageReplay envT stEmpty opOk = .ok stg ∧
      rootAfterFees envT opOk stg = opOk.block.new_root_hash ∧
      pdOk.new_root = opOk.block.new_root_hash) ∧
    (∃ e, build_prover_data envT stEmpty opBadRoot = .fatal e) :=
  ⟨(C1_root_after_fees_matches_committed_root envT stEmpty opOk).1 pdOk rfl,
   (C1_root_after_fees_matches_committed_root envT stEmpty opBadRoot).2 stgEmpty rfl
     (by decide)⟩

theorem C2_padded_lengths_exact_witness :
    (pdOk.operations.length = opOk.block.smallest_block_size ∧
      ∃ stg, stageReplay envT stEmpty opOk = .ok stg ∧
        (paddedPubData opOk.block.smallest_block_size stg.replayed).length
          = 64 * opOk.block.smallest_block_size ∧
        (paddedOperations envT opOk.block.smallest_block_size stg.replayed).length
          = opOk.block.smallest_block_size) ∧
    (∃ e, build_prover_data envWide stOneDeposit opSize1 = .fatal e) :=
  ⟨(C2_padded_lengths_exact envT stEmpty opOk).1 pdOk rfl,
   (C2_padded_lengths_exact envWide stOneDeposit opSize1).2 stgWide rfl
     (Or.inr (by decide))⟩

/-- **C7.** In `build_prover_data`, every signature-unpacking failure,
signature-data-preparation failure, and storage read failure is surfaced to
the caller as a descriptive error result — not retried internally and not a
process abort: storage failures of the two loads map to their descriptive
messages, a replay-loop failure is returned as-is, and inside the loop a
signature-unpacking or signature-data-preparation failure on any signed
variant makes that iteration (and hence the loop) fail with the
corresponding error. -/
theorem C7_failures_surfaced_as_errors :
    ∀ (env : CircuitEnv) (st : Storage) (op : Operation),
      (∀ e, st.load_committed_state (op.block.block_number - 1) = .error e →
        build_prover_data env st op = .err ("failed to load commited state: " ++ e)) ∧
      (∀ accounts e, st.load_committed_state (op.block.block_number - 1) = .ok accounts →
        st.get_block_operations op.block.block_number = .error e →
        build_prover_data env st op = .err ("failed to get block operations " ++ e)) ∧
      (∀ accounts ops e, st.load_committed_state (op.block.block_number - 1) = .ok accounts →
        st.get_block_operations op.block.block_number = .ok ops →
        replayAll env ops
            { tree := buildAccountTree accounts, operations := [], pub_data := [], fees := [] }
          = .error e →
        build_prover_data env st op = .err e) ∧
      (∀ s tx e, env.serialize_packed tx.signature.sig = .error e →
        replayOp env s (.Transfer tx) = .error ("failed to pack transaction signature " ++ e) ∧
        replayOp env s (.TransferToNew tx)
          = .error ("failed to pack transaction signature " ++ e) ∧
        replayOp env s (.Withdraw tx) = .error ("failed to pack transaction signature " ++ e) ∧
        replayOp env s (.Close tx) = .error ("failed to pack signature: " ++ e)) ∧
      (∀ s tx sp e, env.serialize_packed tx.signature.sig = .ok sp →
        env.prepare_sig_data sp tx.bytes tx.signature.pub_key = .error e →
        replayOp env s (.Transfer tx) = .error e ∧
        replayOp env s (.TransferToNew tx) = .error e ∧
        replayOp env s (.Withdraw tx) = .error e ∧
        replayOp env s (.Close tx) = .error e) ∧
      (∀ o rest s e, replayOp env s o = .error e →
        replayAll env (o :: rest) s = .error e) := by
  intro env st op
  refine ⟨?_, ?_, ?_, ?_, ?_, ?_⟩
  · intro e h
    simp [build_prover_data, stageReplay, h]
  · intro accounts e h1 h2
    simp [build_prover_data, stageReplay, h1, h2]
  · intro accounts ops e h1 h2 h3
    simp [build_prover_data, stageReplay, h1, h2, h3]
  · intro s tx e h
    refine ⟨?_, ?_, ?_, ?_⟩ <;> simp [replayOp, h]
  · intro s tx sp e h1 h2
    refine ⟨?_, ?_, ?_, ?_⟩ <;> simp [replayOp, h1, h2]
  · intro o rest s e h
    simp [replayAll, h]

theorem C7_failures_surfaced_as_errors_witness :
    build_prover_data envT stLoadFail opOk
      = .err ("failed to load commited state: " ++ "db down") ∧
    build_prover_data envT stOpsFail opOk
      = .err ("failed to get block operations " ++ "db down") ∧
    build_prover_data envSigFail stOneTransfer opOk
      = .err ("failed to pack transaction signature " ++ "bad sig") ∧
    (replayOp envSigFail rsEmpty (.Transfer txT)
        = .error ("failed to pack transaction signature " ++ "bad sig") ∧
      replayOp envSigFail rsEmpty (.TransferToNew txT)
        = .error ("failed to pack transaction signature " ++ "bad sig") ∧
      replayOp envSigFail rsEmpty (.Withdraw txT)
        = .error ("failed to pack transaction signature " ++ "bad sig") ∧
      replayOp envSigFail rsEmpty (.Close txT)
        = .error ("failed to pack signature: " ++ "bad sig")) ∧
    (replayOp envPrepFail rsEmpty (.Transfer txT) = .error "bad sig data" ∧
      replayOp envPrepFail rsEmpty (.TransferToNew txT) = .error "bad sig data" ∧
      replayOp envPrepFail rsEmpty (.Withdraw txT) = .error "bad sig data" ∧
      replayOp envPrepFail rsEmpty (.Close txT) = .error "bad sig data") :=
  ⟨(C7_failures_surfaced_as_errors envT stLoadFail opOk).1 "db down" rfl,
   (C7_failures_surfaced_as_errors envT stOpsFail opOk).2.1 [] "db down" rfl rfl,
   (C7_failures_surfaced_as_errors envSigFail stOneTransfer opOk).2.2.1 [] [.Transfer txT]
     ("failed to pack transaction signature " ++ "bad sig") rfl rfl rfl,
   (C7_failures_surfaced_as_errors envSigFail stOneTransfer opOk).2.2.2.1 rsEmpty txT
     "bad sig" rfl,
   (C7_failures_surfaced_as_errors envPrepFail stOneTransfer opOk).2.2.2.2.1 rsEmpty txT
     [] "bad sig data" rfl rfl⟩

/-- **C4 (amended).** For every per-size queue and refill call: if the
backlog length is already at or above the limit the call changes nothing;
otherwise, provided storage honors its contract of returning at most
`limit` blocks, at most `limit` blocks are appended — so the backlog after
any refill call is bounded by `max (previous length) (2·limit − 1)`, not by
`limit` itself. -/
theorem C4_refill_noop_and_backlog_bound :
    ∀ (st : QueueStorage) (limit : Int) (q : BlockSizedOperationsQueue),
      (usizeOfI64 limit ≤ q.operations.length →
        q.take_next_commits_if_needed st limit = .ok q) ∧
      ((∀ ops, st.load_unverified_commits_after_block q.block_size q.last_loaded_block limit
            = .ok ops → ops.length ≤ usizeOfI64 limit) →
        ∀ q', q.take_next_commits_if_needed st limit = .ok q' →
          q'.operations.length ≤ max q.operations.length (2 * usizeOfI64 limit - 1)) := by
  intro st limit q
  constructor
  · intro h
    unfold BlockSizedOperationsQueue.take_next_commits_if_needed
    rw [if_neg (not_lt.mpr h)]
  · intro hcontract q' h
    unfold BlockSizedOperationsQueue.take_next_commits_if_needed at h
    by_cases hlt : q.operations.length < usizeOfI64 limit
    · rw [if_pos hlt] at h
      cases hload : st.load_unverified_commits_after_block q.block_size q.last_loaded_block limit
        with
      | error e => rw [hload] at h; exact absurd h (by simp)
      | ok ops =>
          rw [hload] at h
          simp only [Except.ok.injEq] at h
          have hops := hcontract ops hload
          have hlen : q'.operations.length = q.operations.length + ops.length := by
            rw [← h]; simp
          refine le_max_of_le_right ?_
          omega
    · rw [if_neg hlt] at h
      simp only [Except.ok.injEq] at h
      rw [← h]
      exact le_max_left _ _

/-- **C4 counterexample.** With `limit = 2`, a backlog of length 1 and a
storage that honors the contract (two blocks, strictly after the cursor,
ascending, at most `limit` of them), the refill leaves a backlog of length
3, which exceeds the limit — refuting "after any refill call the backlog
length does not exceed the limit". -/
theorem C4_counterexample :
    stC4.load_unverified_commits_after_block 6 1 2 = .ok [opN 2, opN 3] ∧
    [opN 2, opN 3].length ≤ usizeOfI64 2 ∧
    (∀ o ∈ [opN 2, opN 3], 1 < o.block.block_number) ∧
    (opN 2).block.block_number < (opN 3).block.block_number ∧
    (qC4.take_next_commits_if_needed stC4 2).map (fun q => q.operations.length) = .ok 3 ∧
    ¬ (3 ≤ usizeOfI64 2) :=
  ⟨rfl, by decide, by decide, by decide, rfl, by decide⟩

theorem C4_refill_noop_and_backlog_bound_witness :
    qC4.take_next_commits_if_needed stC4 0 = .ok qC4 ∧
    (∀ q', qC4.take_next_commits_if_needed stC4 2 = .ok q' →
      q'.operations.length ≤ max qC4.operations.length (2 * usizeOfI64 2 - 1)) :=
  ⟨(C4_refill_noop_and_backlog_bound stC4 0 qC4).1 (by decide),
   (C4_refill_noop_and_backlog_bound stC4 2 qC4).2 (fun ops h => by
      simp only [stC4, Except.ok.injEq] at h
      rw [← h]
      decide)⟩

/-- The queue component of `prepare_next_if_any` is exactly "pop the
front", whatever the replay does. -/
theorem prepare_next_if_any_queue_effect
    (build : Operation → BuildOutcome ProverData) (q : BlockSizedOperationsQueue) :
    (prepare_next_if_any build q).2 = { q with operations := q.operations.tail } := by
  cases q with
  | mk operations llb bs =>
      cases operations with
      | nil => rfl
      | cons op rest =>
          simp only [prepare_next_if_any]
          cases build op <;> rfl

/-- A single refill that took the branch and appended a nonempty response
advances the cursor to the last appended block's number. -/
theorem refill_appends_sets_cursor (st : QueueStorage) (limit : Int)
    (q : BlockSizedOperationsQueue) (ops : List Operation)
    (hlt : q.operations.length < usizeOfI64 limit)
    (hload : st.load_unverified_commits_after_block q.block_size q.last_loaded_block limit
      = .ok ops)
    (hne : ops ≠ []) :
    ∃ q' l, q.take_next_commits_if_needed st limit = .ok q' ∧
      ops.getLast? = some l ∧ q'.last_loaded_block = l.block.block_number := by
  unfold BlockSizedOperationsQueue.take_next_commits_if_needed
  rw [if_pos hlt, hload]
  refine ⟨_, ops.getLast hne, rfl, List.getLast?_eq_getLast_of_ne_nil hne, ?_⟩
  simp only [List.getLast?_append_of_ne_nil _ hne, List.getLast?_eq_getLast_of_ne_nil hne]

/-- The backlog-full refill is a no-op. -/
theorem refill_skip (st : QueueStorage) (limit : Int) (q : BlockSizedOperationsQueue)
    (h : ¬ q.operations.length < usizeOfI64 limit) :
    q.take_next_commits_if_needed st limit = .ok q := by
  unfold BlockSizedOperationsQueue.take_next_commits_if_needed
  rw [if_neg h]

/-- The shape of a refill that took the branch with a successful load. -/
theorem refill_load_ok (st : QueueStorage) (limit : Int) (q : BlockSizedOperationsQueue)
    (ops : List Operation) (hlt : q.operations.length < usizeOfI64 limit)
    (hload : st.load_unverified_commits_after_block q.block_size q.last_loaded_block limit
      = .ok ops) :
    q.take_next_commits_if_needed st limit =
      .ok { q with operations := q.operations ++ ops,
                   last_loaded_block :=
                     match (q.operations ++ ops).getLast? with
                     | some o => o.block.block_number
                     | none => q.last_loaded_block } := by
  unfold BlockSizedOperationsQueue.take_next_commits_if_needed
  rw [if_pos hlt, hload]

/-- A refill whose load fails surfaces the storage error. -/
theorem refill_load_error (st : QueueStorage) (limit : Int) (q : BlockSizedOperationsQueue)
    (e : String) (hlt : q.operations.length < usizeOfI64 limit)
    (hload : st.load_unverified_commits_after_block q.block_size q.last_loaded_block limit
      = .error e) :
    q.take_next_commits_if_needed st limit
      = .error ("failed to read commit operations: " ++ e) := by
  unfold BlockSizedOperationsQueue.take_next_commits_if_needed
  rw [if_pos hlt, hload]

/-- The refill step of a trace, as a closed-form state function. -/
theorem queueStep_refill_eq (q : BlockSizedOperationsQueue)
    (response : Except String (List Operation)) (limit : Int) :
    queueStep q (.refill response limit) =
      if q.operations.length < usizeOfI64 limit then
        match response with
        | .error _ => q
        | .ok ops =>
            { q with operations := q.operations ++ ops,
                     last_loaded_block :=
                       match (q.operations ++ ops).getLast? with
                       | some o => o.block.block_number
                       | none => q.last_loaded_block }
      else q := by
  by_cases hlt : q.operations.length < usizeOfI64 limit
  · rw [if_pos hlt]
    cases response with
    | error e =>
        simp only [queueStep]
        rw [refill_load_error (oneShotStorage (.error e)) limit q e hlt rfl]
    | ok ops =>
        simp only [queueStep]
        rw [refill_load_ok (oneShotStorage (.ok ops)) limit q ops hlt rfl]
  · rw [if_neg hlt]
    simp only [queueStep]
    rw [refill_skip (oneShotStorage response) limit q hlt]

/-- One valid refill step preserves the cursor/backlog invariant and never
decreases the cursor. -/
theorem queueStep_refill_inv (q : BlockSizedOperationsQueue)
    (response : Except String (List Operation)) (limit : Int)
    (hinv : QueueLastInv q) (hgood : goodEvent q (.refill response limit)) :
    QueueLastInv (queueStep q (.refill response limit)) ∧
      q.last_loaded_block ≤ (queueStep q (.refill response limit)).last_loaded_block := by
  rw [queueStep_refill_eq]
  by_cases hlt : q.operations.length < usizeOfI64 limit
  · rw [if_pos hlt]
    cases response with
    | error e => exact ⟨hinv, le_refl _⟩
    | ok ops =>
        cases ops with
        | nil =>
            simp only [List.append_nil]
            cases hback : q.operations.getLast? with
            | none =>
                constructor
                · intro o' h'
                  rw [hback] at h'
                  cases h'
                · simp [hback]
            | some o =>
                have hinv' := hinv o hback
                constructor
                · intro o' h'
                  rw [hback] at h'
                  cases h'
                  simp [hback, hinv']
                · simp [hback, hinv']
        | cons a rest =>
            have hne' : a :: rest ≠ [] := by simp
            have hlast := List.getLast?_eq_getLast_of_ne_nil hne'
            have hmem : (a :: rest).getLast hne' ∈ a :: rest := List.getLast_mem hne'
            have hgt : q.last_loaded_block < ((a :: rest).getLast hne').block.block_number :=
              (hgood (a :: rest) rfl).1 _ hmem
            constructor
            · intro o' h'
              simp only at h'
              rw [List.getLast?_append_of_ne_nil _ hne', hlast] at h'
              cases h'
              simp [List.getLast?_append_of_ne_nil _ hne', hlast]
            · simp only [List.getLast?_append_of_ne_nil _ hne', hlast]
              exact le_of_lt hgt
  · rw [if_neg hlt]
    exact ⟨hinv, le_refl _⟩

/-- The take-next step preserves the cursor/backlog invariant and leaves
the cursor unchanged. -/
theorem queueStep_take_inv (q : BlockSizedOperationsQueue) (hinv : QueueLastInv q) :
    QueueLastInv (queueStep q .takeNext) ∧
      (queueStep q .takeNext).last_loaded_block = q.last_loaded_block := by
  refine ⟨?_, rfl⟩
  intro o h
  simp only [queueStep] at h
  apply hinv
  cases hq : q.operations with
  | nil =>
      rw [hq] at h
      exact absurd h (by simp)
  | cons x t =>
      rw [hq] at h
      simp only [List.tail_cons] at h
      cases t with
      | nil => exact absurd h (by simp)
      | cons y t' => rw [List.getLast?_cons_cons]; exact h

/-- Along any valid trace, the invariant is preserved and the cursor never
decreases. -/
theorem runEvents_inv (evs : List QueueEvent) :
    ∀ q, QueueLastInv q → ValidTrace q evs →
      QueueLastInv (runEvents q evs) ∧
        q.last_loaded_block ≤ (runEvents q evs).last_loaded_block := by
  induction evs with
  | nil => exact fun q hinv _ => ⟨hinv, le_refl _⟩
  | cons ev rest ih =>
      intro q hinv hvalid
      obtain ⟨hgood, hrest⟩ := hvalid
      have hstep : QueueLastInv (queueStep q ev) ∧
          q.last_loaded_block ≤ (queueStep q ev).last_loaded_block := by
        cases ev with
        | refill response limit => exact queueStep_refill_inv q response limit hinv hgood
        | takeNext =>
            have h := queueStep_take_inv q hinv
            exact ⟨h.1, le_of_eq h.2.symm⟩
      have hrec := ih (queueStep q ev) hstep.1 hrest
      exact ⟨hrec.1, le_trans hstep.2 hrec.2⟩

/-- **C5.** Assuming the storage collaborator returns blocks strictly after
the requested cursor in ascending order, `last_loaded_block` is
monotonically non-decreasing across any sequence of refill and take-next
calls (from any state satisfying the cursor/backlog invariant, which holds
for a freshly constructed queue), and a refill that appends a nonempty
batch sets it to the last appended block's number. -/
theorem C5_last_loaded_block_monotone :
    (∀ (q : BlockSizedOperationsQueue) (evs : List QueueEvent),
      QueueLastInv q → ValidTrace q evs →
        q.last_loaded_block ≤ (runEvents q evs).last_loaded_block) ∧
    (∀ bs, QueueLastInv (BlockSizedOperationsQueue.mkNew bs)) ∧
    (∀ (st : QueueStorage) (limit : Int) (q : BlockSizedOperationsQueue)
        (ops : List Operation),
      q.operations.length < usizeOfI64 limit →
      st.load_unverified_commits_after_block q.block_size q.last_loaded_block limit = .ok ops →
      ops ≠ [] →
      ∃ q' l, q.take_next_commits_if_needed st limit = .ok q' ∧
        ops.getLast? = some l ∧ q'.last_loaded_block = l.block.block_number) := by
  refine ⟨?_, ?_, refill_appends_sets_cursor⟩
  · intro q evs hinv hvalid
    exact (runEvents_inv evs q hinv hvalid).2
  · intro bs o h
    cases h

theorem C5_last_loaded_block_monotone_witness :
    ((BlockSizedOperationsQueue.mkNew 6).last_loaded_block
        ≤ (runEvents (BlockSizedOperationsQueue.mkNew 6) evsW).last_loaded_block) ∧
    (∃ q' l, qC4.take_next_commits_if_needed stC4 2 = .ok q' ∧
      [opN 2, opN 3].getLast? = some l ∧ q'.last_loaded_block = l.block.block_number) :=
  ⟨C5_last_loaded_block_monotone.1 (BlockSizedOperationsQueue.mkNew 6) evsW
      (C5_last_loaded_block_monotone.2.1 6)
      (by
        refine ⟨?_, ?_, trivial⟩
        · intro ops h
          cases h
          exact ⟨by decide, List.chain'_cons.mpr ⟨by decide, List.chain'_singleton _⟩⟩
        · trivial),
   C5_last_loaded_block_monotone.2.2 stC4 2 qC4 [opN 2, opN 3] (by decide) rfl (by decide)⟩

/-- `prepare_next_if_any` reports a prepared block only when the backlog
front exists, carries that block's number, and the replay succeeded on it;
the queue keeps exactly the tail. -/
theorem prepare_next_if_any_ok_some {build : Operation → BuildOutcome ProverData}
    {q q' : BlockSizedOperationsQueue} {bn : Nat} {pd : ProverData}
    (h : prepare_next_if_any build q = (.ok (some (bn, pd)), q')) :
    ∃ op rest, q.operations = op :: rest ∧ op.block.block_number = bn ∧
      build op = .ok pd ∧ q'.operations = rest := by
  cases hq : q.operations with
  | nil => rw [prepare_next_if_any, hq] at h; simp at h
  | cons op rest =>
      simp only [prepare_next_if_any, hq] at h
      cases hb : build op with
      | ok pd' =>
          simp only [hb, Prod.mk.injEq, BuildOutcome.ok.injEq, Option.some.injEq] at h
          obtain ⟨⟨hbn, hpd⟩, hqq⟩ := h
          exact ⟨op, rest, rfl, hbn, by rw [hb, hpd], by rw [← hqq]⟩
      | err e => simp [hb] at h
      | fatal e => simp [hb] at h

/-- `prepare_next_if_any` returns `ok none` only on an empty backlog. -/
theorem prepare_next_if_any_ok_none {build : Operation → BuildOutcome ProverData}
    {q : BlockSizedOperationsQueue}
    (h : (prepare_next_if_any build q).1 = .ok none) : q.operations = [] := by
  cases hq : q.operations with
  | nil => rfl
  | cons op rest =>
      simp only [prepare_next_if_any, hq] at h
      cases hb : build op with
      | ok pd' => simp [hb] at h
      | err e => simp [hb] at h
      | fatal e => simp [hb] at h

/-- Frame lemma for the `prepare_next` walk: a prepared-cache entry changes
only if some walked queue's front block has that number and its replay
returned `ok`; the entry then holds a replay result for that number. -/
theorem prepareNextGo_prepared_change (build : Operation → BuildOutcome ProverData) :
    ∀ (qs : List (Nat × BlockSizedOperationsQueue)) (prepared : Nat → Option ProverData)
      (bn : Nat),
      (prepareNextGo build qs prepared).2.2 bn ≠ prepared bn →
      ∃ sz q op rest pd, (sz, q) ∈ qs ∧ q.operations = op :: rest ∧
        op.block.block_number = bn ∧ build op = .ok pd ∧
        (prepareNextGo build qs prepared).2.2 bn = some pd := by
  intro qs
  induction qs with
  | nil => intro prepared bn h; exact absurd rfl h
  | cons hd rest ih =>
      obtain ⟨sz0, q0⟩ := hd
      intro prepared bn h
      rcases hp : prepare_next_if_any build q0 with ⟨res, q0'⟩
      cases res with
      | ok o =>
          cases o with
          | none =>
              rw [prepareNextGo, hp] at h ⊢
              obtain ⟨sz, q, op, rest', pd, hmem, hops, hbn, hb, hval⟩ := ih prepared bn h
              exact ⟨sz, q, op, rest', pd, List.mem_cons_of_mem _ hmem, hops, hbn, hb, hval⟩
          | some bnpd =>
              obtain ⟨bn0, pd0⟩ := bnpd
              rw [prepareNextGo, hp] at h ⊢
              by_cases hfe : (prepareNextGo build rest (insertPrepared prepared bn0 pd0)).2.2 bn
                  = insertPrepared prepared bn0 pd0 bn
              · by_cases hbn : bn = bn0
                · subst hbn
                  obtain ⟨op, rest', hops, hnum, hb, _⟩ := prepare_next_if_any_ok_some hp
                  refine ⟨sz0, q0, op, rest', pd0, List.mem_cons_self _ _, hops, hnum, hb, ?_⟩
                  rw [hfe]
                  simp [insertPrepared]
                · exfalso
                  apply h
                  rw [hfe]
                  simp [insertPrepared, hbn]
              · obtain ⟨sz, q, op, rest', pd, hmem, hops, hbn, hb, hval⟩ :=
                  ih (insertPrepared prepared bn0 pd0) bn hfe
                exact ⟨sz, q, op, rest', pd, List.mem_cons_of_mem _ hmem, hops, hbn, hb, hval⟩
      | err e => rw [prepareNextGo, hp] at h; exact absurd rfl h
      | fatal e => rw [prepareNextGo, hp] at h; exact absurd rfl h

/-- **C6.** `take_next` (`prepare_next_if_any`) pops and returns the oldest
queued block, or nothing if the queue is empty, and the popped block is
permanently removed: whatever the replay returns, the queue keeps exactly
the tail (no re-enqueue), and when the replay fails with an error the error
is propagated and — at the pool level — a prepared-cache entry can have
changed only where some queue's front block replayed successfully, so the
failed block's entry is never inserted. -/
theorem C6_take_next_removes_permanently :
    ∀ (build : Operation → BuildOutcome ProverData),
      (∀ q, q.operations = [] → prepare_next_if_any build q = (.ok none, q)) ∧
      (∀ q op rest, q.operations = op :: rest →
        ((prepare_next_if_any build q).2).operations = rest ∧
        (∀ pd, build op = .ok pd →
          (prepare_next_if_any build q).1 = .ok (some (op.block.block_number, pd))) ∧
        (∀ e, build op = .err e → (prepare_next_if_any build q).1 = .err e)) ∧
      (∀ (p : ProversDataPool) (bn : Nat),
        ((p.prepare_next build).2).prepared bn ≠ p.prepared bn →
        ∃ sz q op rest pd, (sz, q) ∈ p.op_queues ∧ q.operations = op :: rest ∧
          op.block.block_number = bn ∧ build op = .ok pd) := by
  intro build
  refine ⟨?_, ?_, ?_⟩
  · intro q h
    rw [prepare_next_if_any, h]
  · intro q op rest h
    refine ⟨?_, ?_, ?_⟩
    · rw [prepare_next_if_any_queue_effect, h]; rfl
    · intro pd hpd
      simp [prepare_next_if_any, h, hpd]
    · intro e he
      simp [prepare_next_if_any, h, he]
  · intro p bn h
    have h' : (prepareNextGo build p.op_queues p.prepared).2.2 bn ≠ p.prepared bn := h
    obtain ⟨sz, q, op, rest, pd, hmem, hops, hbn, hb, _⟩ :=
      prepareNextGo_prepared_change build p.op_queues p.prepared bn h'
    exact ⟨sz, q, op, rest, pd, hmem, hops, hbn, hb⟩

theorem C6_take_next_removes_permanently_witness :
    prepare_next_if_any buildFail (BlockSizedOperationsQueue.mkNew 6)
      = (.ok none, BlockSizedOperationsQueue.mkNew 6) ∧
    ((prepare_next_if_any buildFail qTwo).2).operations = [opN 2] ∧
    (prepare_next_if_any buildFail qTwo).1 = .err "replay failed" ∧
    ((poolTwo.prepare_next buildFail).2).prepared 1 = poolTwo.prepared 1 :=
  ⟨(C6_take_next_removes_permanently buildFail).1 _ rfl,
   ((C6_take_next_removes_permanently buildFail).2.1 qTwo (opN 1) [opN 2] rfl).1,
   ((C6_take_next_removes_permanently buildFail).2.1 qTwo (opN 1) [opN 2] rfl).2.2
     "replay failed" rfl,
   by
    by_contra hne
    obtain ⟨sz, q, op, rest, pd, hmem, hops, hbn, hb⟩ :=
      (C6_take_next_removes_permanently buildFail).2.2 poolTwo 1 hne
    exact absurd hb (by simp [buildFail])⟩

/-- Shape lemma for the `prepare_next` walk: every size class keeps its
position and size, and its backlog is either untouched or loses exactly its
front element. -/
theorem prepareNextGo_queues_shape (build : Operation → BuildOutcome ProverData) :
    ∀ (qs : List (Nat × BlockSizedOperationsQueue)) (prepared : Nat → Option ProverData)
      (i sz : Nat) (q : BlockSizedOperationsQueue),
      qs[i]? = some (sz, q) →
      ∃ q', ((prepareNextGo build qs prepared).2.1)[i]? = some (sz, q') ∧
        (q'.operations = q.operations ∨ q'.operations = q.operations.tail) := by
  intro qs
  induction qs with
  | nil => intro prepared i sz q h; simp at h
  | cons hd rest ih =>
      obtain ⟨sz0, q0⟩ := hd
      intro prepared i sz q h
      rcases hp : prepare_next_if_any build q0 with ⟨res, q0'⟩
      have hq0' : q0'.operations = q0.operations.tail := by
        have h3 : q0' = { q0 with operations := q0.operations.tail } := by
          have h4 := prepare_next_if_any_queue_effect build q0
          rw [hp] at h4
          exact h4
        rw [h3]
      cases res with
      | ok o =>
          cases o with
          | none =>
              rcases hgo : prepareNextGo build rest prepared with ⟨r, qs2, m⟩
              have hgoal : prepareNextGo build ((sz0, q0) :: rest) prepared
                  = (r, (sz0, q0') :: qs2, m) := by
                rw [prepareNextGo, hp, hgo]
              rw [hgoal]
              cases i with
              | zero =>
                  simp only [List.getElem?_cons_zero, Option.some.injEq, Prod.mk.injEq] at h
                  obtain ⟨hsz, hq⟩ := h
                  subst hsz; subst hq
                  exact ⟨q0', by simp, Or.inr hq0'⟩
              | succ j =>
                  simp only [List.getElem?_cons_succ] at h
                  obtain ⟨q', hq', hor⟩ := ih prepared j sz q h
                  rw [hgo] at hq'
                  exact ⟨q', by simpa using hq', hor⟩
          | some bnpd =>
              obtain ⟨bn0, pd0⟩ := bnpd
              rcases hgo : prepareNextGo build rest (insertPrepared prepared bn0 pd0) with
                ⟨r, qs2, m⟩
              have hgoal : prepareNextGo build ((sz0, q0) :: rest) prepared
                  = (r, (sz0, q0') :: qs2, m) := by
                rw [prepareNextGo, hp]
                show (match prepareNextGo build rest (insertPrepared prepared bn0 pd0) with
                      | (r, qs, m) => (r, (sz0, q0') :: qs, m)) = (r, (sz0, q0') :: qs2, m)
                rw [hgo]
              rw [hgoal]
              cases i with
              | zero =>
                  simp only [List.getElem?_cons_zero, Option.some.injEq, Prod.mk.injEq] at h
                  obtain ⟨hsz, hq⟩ := h
                  subst hsz; subst hq
                  exact ⟨q0', by simp, Or.inr hq0'⟩
              | succ j =>
                  simp only [List.getElem?_cons_succ] at h
                  obtain ⟨q', hq', hor⟩ := ih (insertPrepared prepared bn0 pd0) j sz q h
                  rw [hgo] at hq'
                  exact ⟨q', by simpa using hq', hor⟩
      | err e =>
          have hgoal : prepareNextGo build ((sz0, q0) :: rest) prepared
              = (.err e, (sz0, q0') :: rest, prepared) := by
            rw [prepareNextGo, hp]
          rw [hgoal]
          cases i with
          | zero =>
              simp only [List.getElem?_cons_zero, Option.some.injEq, Prod.mk.injEq] at h
              obtain ⟨hsz, hq⟩ := h
              subst hsz; subst hq
              exact ⟨q0', by simp, Or.inr hq0'⟩
          | succ j =>
              simp only [List.getElem?_cons_succ] at h
              exact ⟨q, by simpa using h, Or.inl rfl⟩
      | fatal e =>
          have hgoal : prepareNextGo build ((sz0, q0) :: rest) prepared
              = (.fatal e, (sz0, q0') :: rest, prepared) := by
            rw [prepareNextGo, hp]
          rw [hgoal]
          cases i with
          | zero =>
              simp only [List.getElem?_cons_zero, Option.some.injEq, Prod.mk.injEq] at h
              obtain ⟨hsz, hq⟩ := h
              subst hsz; subst hq
              exact ⟨q0', by simp, Or.inr hq0'⟩
          | succ j =>
              simp only [List.getElem?_cons_succ] at h
              exact ⟨q, by simpa using h, Or.inl rfl⟩

/-- Insertion lemma for the `prepare_next` walk: when the whole pass
returns `ok`, a class whose front block replays successfully gets exactly
that result inserted under its block number, provided no other class's
front carries the same number. -/
theorem prepareNextGo_inserts (build : Operation → BuildOutcome ProverData) :
    ∀ (qs : List (Nat × BlockSizedOperationsQueue)) (prepared : Nat → Option ProverData)
      (i sz : Nat) (q : BlockSizedOperationsQueue) (op : Operation) (tl : List Operation)
      (pd : ProverData),
      qs[i]? = some (sz, q) → q.operations = op :: tl → build op = .ok pd →
      (prepareNextGo build qs prepared).1 = .ok () →
      (∀ (j sz' : Nat) (q' : BlockSizedOperationsQueue) (op' : Operation)
          (tl' : List Operation),
        j ≠ i → qs[j]? = some (sz', q') → q'.operations = op' :: tl' →
        op'.block.block_number ≠ op.block.block_number) →
      (prepareNextGo build qs prepared).2.2 op.block.block_number = some pd := by
  intro qs
  induction qs with
  | nil => intro prepared i sz q op tl pd h; simp at h
  | cons hd rest ih =>
      obtain ⟨sz0, q0⟩ := hd
      intro prepared i sz q op tl pd h hops hb hok hdist
      rcases hp : prepare_next_if_any build q0 with ⟨res, q0'⟩
      cases res with
      | err e => rw [prepareNextGo, hp] at hok; simp at hok
      | fatal e => rw [prepareNextGo, hp] at hok; simp at hok
      | ok o =>
          cases o with
          | none =>
              have hq0nil : q0.operations = [] :=
                prepare_next_if_any_ok_none
                  (show (prepare_next_if_any build q0).1 = .ok none by rw [hp])
              cases i with
              | zero =>
                  simp only [List.getElem?_cons_zero, Option.some.injEq, Prod.mk.injEq] at h
                  rw [← h.2, hq0nil] at hops
                  cases hops
              | succ j =>
                  simp only [List.getElem?_cons_succ] at h
                  rw [prepareNextGo, hp] at hok ⊢
                  exact ih prepared j sz q op tl pd h hops hb hok
                    (fun j' sz' q' op' tl' hne hj' hops' =>
                      hdist (j' + 1) sz' q' op' tl' (by omega)
                        (by simpa using hj') hops')
          | some bnpd =>
              obtain ⟨bn0, pd0⟩ := bnpd
              cases i with
              | zero =>
                  simp only [List.getElem?_cons_zero, Option.some.injEq, Prod.mk.injEq] at h
                  obtain ⟨hsz, hq⟩ := h
                  subst hsz
                  subst hq
                  obtain ⟨op0, tl0, hops0, hnum0, hb0, _⟩ := prepare_next_if_any_ok_some hp
                  rw [hops] at hops0
                  obtain ⟨hop0, htl0⟩ : op = op0 ∧ tl = tl0 := by
                    cases hops0; exact ⟨rfl, rfl⟩
                  subst hop0
                  have hpd0 : pd0 = pd := by
                    rw [hb] at hb0
                    cases hb0; rfl
                  subst hpd0
                  subst hnum0
                  rw [prepareNextGo, hp]
                  by_cases hfe :
                      (prepareNextGo build rest
                          (insertPrepared prepared op.block.block_number pd0)).2.2
                          op.block.block_number
                        = insertPrepared prepared op.block.block_number pd0
                            op.block.block_number
                  · rw [hfe]
                    simp [insertPrepared]
                  · exfalso
                    obtain ⟨sz', q'', op'', tl'', pd'', hmem, hops'', hbn'', _, _⟩ :=
                      prepareNextGo_prepared_change build rest
                        (insertPrepared prepared op.block.block_number pd0)
                        op.block.block_number hfe
                    obtain ⟨j, hj⟩ := List.mem_iff_getElem?.mp hmem
                    exact hdist (j + 1) sz' q'' op'' tl'' (by omega)
                      (by simpa using hj) hops'' hbn''
              | succ j =>
                  simp only [List.getElem?_cons_succ] at h
                  rw [prepareNextGo, hp] at hok ⊢
                  exact ih (insertPrepared prepared bn0 pd0) j sz q op tl pd h hops hb hok
                    (fun j' sz' q' op' tl' hne hj' hops' =>
                      hdist (j' + 1) sz' q' op' tl' (by omega)
                        (by simpa using hj') hops')

/-- **C8.** Each `prepare_next` call advances at most one block per size
class — every class's backlog either is untouched or loses exactly its
front — and, when the whole pass succeeds, a class whose front block
replayed successfully has the resulting `ProverData` inserted into the
prepared cache keyed by that block's number (stated under the natural
side condition that no other class's front carries the same number). -/
theorem C8_prepare_next_one_block_per_class :
    ∀ (build : Operation → BuildOutcome ProverData) (p : ProversDataPool),
      (∀ (i sz : Nat) (q : BlockSizedOperationsQueue),
        p.op_queues[i]? = some (sz, q) →
        ∃ q', ((p.prepare_next build).2).op_queues[i]? = some (sz, q') ∧
          (q'.operations = q.operations ∨ q'.operations = q.operations.tail)) ∧
      (∀ (i sz : Nat) (q : BlockSizedOperationsQueue) (op : Operation)
          (tl : List Operation) (pd : ProverData),
        p.op_queues[i]? = some (sz, q) → q.operations = op :: tl → build op = .ok pd →
        (p.prepare_next build).1 = .ok () →
        (∀ (j sz' : Nat) (q' : BlockSizedOperationsQueue) (op' : Operation)
            (tl' : List Operation),
          j ≠ i → p.op_queues[j]? = some (sz', q') → q'.operations = op' :: tl' →
          op'.block.block_number ≠ op.block.block_number) →
        ((p.prepare_next build).2).prepared op.block.block_number = some pd) := by
  intro build p
  constructor
  · intro i sz q h
    exact prepareNextGo_queues_shape build p.op_queues p.prepared i sz q h
  · intro i sz q op tl pd h hops hb hok hdist
    exact prepareNextGo_inserts build p.op_queues p.prepared i sz q op tl pd h hops hb hok
      hdist

theorem C8_prepare_next_one_block_per_class_witness :
    (∃ q', ((poolTC.prepare_next buildConst).2).op_queues[0]? = some (6, q') ∧
      (q'.operations = qA.operations ∨ q'.operations = qA.operations.tail)) ∧
    ((poolTC.prepare_next buildConst).2).prepared 1 = some pdOk :=
  ⟨(C8_prepare_next_one_block_per_class buildConst poolTC).1 0 6 qA rfl,
   (C8_prepare_next_one_block_per_class buildConst poolTC).2 0 6 qA (opN 1) [] pdOk
     rfl rfl rfl rfl
     (by
      intro j sz' q' op' tl' hj hq' hops'
      cases j with
      | zero => exact absurd rfl hj
      | succ k =>
          cases k with
          | zero =>
              simp only [poolTC, List.getElem?_cons_succ, List.getElem?_cons_zero,
                Option.some.injEq, Prod.mk.injEq] at hq'
              rw [← hq'.2] at hops'
              have : op' = opM := by
                have h1 : qB.operations = [opM] := rfl
                rw [h1] at hops'
                cases hops'
                rfl
              rw [this]
              decide
          | succ k' => simp [poolTC] at hq')⟩

/-- One successful loop iteration appends exactly that operation's fee
record: the (token, fee) pair for `Transfer`, `TransferToNew` and
`Withdraw`, nothing for any other variant. -/
theorem replayOp_fees {env : CircuitEnv} {s s' : ReplayState} {op : FranklinOp}
    (h : replayOp env s op = .ok s') :
    s'.fees = s.fees ++ opFee op := by
  cases op with
  | Deposit d =>
      simp only [replayOp, Except.ok.injEq] at h
      subst h
      simp [opFee]
  | Transfer tx =>
      simp only [replayOp] at h
      cases hs : env.serialize_packed tx.signature.sig with
      | error e => simp [hs] at h
      | ok sp =>
          simp only [hs] at h
          cases hpr : env.prepare_sig_data sp tx.bytes tx.signature.pub_key with
          | error e => simp [hpr] at h
          | ok parts =>
              simp only [hpr, Except.ok.injEq] at h
              subst h
              simp [opFee]
  | TransferToNew tx =>
      simp only [replayOp] at h
      cases hs : env.serialize_packed tx.signature.sig with
      | error e => simp [hs] at h
      | ok sp =>
          simp only [hs] at h
          cases hpr : env.prepare_sig_data sp tx.bytes tx.signature.pub_key with
          | error e => simp [hpr] at h
          | ok parts =>
              simp only [hpr, Except.ok.injEq] at h
              subst h
              simp [opFee]
  | Withdraw tx =>
      simp only [replayOp] at h
      cases hs : env.serialize_packed tx.signature.sig with
      | error e => simp [hs] at h
      | ok sp =>
          simp only [hs] at h
          cases hpr : env.prepare_sig_data sp tx.bytes tx.signature.pub_key with
          | error e => simp [hpr] at h
          | ok parts =>
              simp only [hpr, Except.ok.injEq] at h
              subst h
              simp [opFee]
  | Close tx =>
      simp only [replayOp] at h
      cases hs : env.serialize_packed tx.signature.sig with
      | error e => simp [hs] at h
      | ok sp =>
          simp only [hs] at h
          cases hpr : env.prepare_sig_data sp tx.bytes tx.signature.pub_key with
          | error e => simp [hpr] at h
          | ok parts =>
              simp only [hpr, Except.ok.injEq] at h
              subst h
              simp [opFee]
  | FullExit fe =>
      simp only [replayOp, Except.ok.injEq] at h
      subst h
      simp [opFee]
  | ChangePubKeyOffchain c =>
      simp only [replayOp, Except.ok.injEq] at h
      subst h
      simp [opFee]
  | Noop n =>
      simp only [replayOp, Except.ok.injEq] at h
      subst h
      simp [opFee]

/-- Over a whole successful replay, the fee list is exactly the block's
recorded fees, appended in operation order. -/
theorem replayAll_fees {env : CircuitEnv} :
    ∀ (ops : List FranklinOp) (s s' : ReplayState),
      replayAll env ops s = .ok s' →
      s'.fees = s.fees ++ collectedFeesOf ops := by
  intro ops
  induction ops with
  | nil =>
      intro s s' h
      simp only [replayAll, Except.ok.injEq] at h
      subst h
      simp [collectedFeesOf]
  | cons op rest ih =>
      intro s s' h
      simp only [replayAll] at h
      cases hstep : replayOp env s op with
      | error e => simp [hstep] at h
      | ok s1 =>
          rw [hstep] at h
          rw [ih s1 s' h, replayOp_fees hstep, collectedFeesOf, List.append_assoc]

/-- Settling a fee list adds, token by token, exactly the summed fee
amounts to the fee account's balances. -/
theorem collect_fees_tree_balance (fa : Nat) :
    ∀ (fees : List CollectedFee) (tree : CircuitAccountTree) (t : Nat),
      ((collect_fees_tree tree fa fees) fa).balances t
        = (tree fa).balances t + sumFeesFor fees t := by
  intro fees
  induction fees with
  | nil => intro tree t; simp [collect_fees_tree, sumFeesFor]
  | cons f rest ih =>
      intro tree t
      have hstep : collect_fees_tree tree fa (f :: rest)
          = collect_fees_tree (tree.addBalance fa f.token f.amount) fa rest := rfl
      rw [hstep, ih]
      have haddb : ((tree.addBalance fa f.token f.amount) fa).balances t
          = (tree fa).balances t + (if f.token = t then f.amount else 0) := by
        by_cases ht : t = f.token
        · simp [CircuitAccountTree.addBalance, ht]
        · simp [CircuitAccountTree.addBalance, ht, Ne.symm ht]
      rw [haddb, sumFeesFor]
      omega

/-- **C3 (amended).** For every block, the replay records for settlement
exactly the (token, amount) fee pairs of its transfer, transfer-to-new and
withdraw operations — account-close operations record no fee — and the fee
account's post-fee balance for each token equals its balance after the
block's operations have been replayed plus the sum of fees recorded in
that token during the block. -/
theorem C3_fee_settlement_amended :
    ∀ (env : CircuitEnv) (st : Storage) (op : Operation) (stg : Staged)
      (ops : List FranklinOp),
      stageReplay env st op = .ok stg →
      st.get_block_operations op.block.block_number = .ok ops →
      stg.replayed.fees = collectedFeesOf ops ∧
      (∀ t, ((collect_fees_tree stg.replayed.tree op.block.fee_account stg.replayed.fees)
              op.block.fee_account).balances t
          = (stg.replayed.tree op.block.fee_account).balances t
              + sumFeesFor (collectedFeesOf ops) t) := by
  intro env st op stg ops hstage hops
  unfold stageReplay at hstage
  cases hload : st.load_committed_state (op.block.block_number - 1) with
  | error e => simp [hload] at hstage
  | ok accounts =>
      simp only [hload] at hstage
      simp only [hops] at hstage
      cases hrep : replayAll env ops
          { tree := buildAccountTree accounts, operations := [], pub_data := [], fees := [] }
        with
      | error e => simp [hrep] at hstage
      | ok s =>
          simp only [hrep, Except.ok.injEq] at hstage
          subst hstage
          have hfees := replayAll_fees ops _ s hrep
          simp only [List.nil_append] at hfees
          refine ⟨hfees, ?_⟩
          intro t
          rw [collect_fees_tree_balance, hfees]

/-- **C3 counterexample.** Two deviations at concrete inputs. First, a
block whose only operation is an account close carrying the fee pair
(token 0, amount 5): the replay records no fee (`fees = []`), the build
succeeds, and the fee account's post-fee balance of token 0 is its
pre-block balance 0, not 0 + 5 — so close fees are not recorded. Second, a
block holding a deposit that credits the fee account (10 of token 0, per
the spec's deposit semantics) followed by a transfer with fee pair
(token 0, amount 5): the transfer's fee is recorded, yet the post-fee
balance is 15, not pre-block 0 + 5 — so the post-fee balance is the
post-replay balance plus the recorded fees, not the pre-block balance plus
them. -/
theorem C3_fee_settlement_counterexample :
    (txT.token = 0 ∧ txT.fee = 5 ∧
      stOneClose.get_block_operations 1 = .ok [.Close txT] ∧
      ((buildAccountTree []) 3).balances 0 = 0 ∧
      (stageReplay envT stOneClose opCex).map (fun stg => stg.replayed.fees) = .ok [] ∧
      builtValidatorBalance envT stOneClose opCex 0 = some 0 ∧
      (0 : Nat) ≠ 0 + 5) ∧
    (stDepTransfer.get_block_operations 1 = .ok [.Deposit 3, .Transfer txT] ∧
      ((buildAccountTree []) 3).balances 0 = 0 ∧
      (stageReplay envDep stDepTransfer opCex).map (fun stg => stg.replayed.fees)
        = .ok [⟨0, 5⟩] ∧
      builtValidatorBalance envDep stDepTransfer opCex 0 = some 15 ∧
      (15 : Nat) ≠ 0 + 5) :=
  ⟨⟨rfl, rfl, rfl, rfl, rfl, rfl, by decide⟩,
   ⟨rfl, rfl, rfl, rfl, by decide⟩⟩

theorem C3_fee_settlement_amended_witness :
    stgT.replayed.fees = collectedFeesOf [.Transfer txT] ∧
    (∀ t, ((collect_fees_tree stgT.replayed.tree opOk.block.fee_account stgT.replayed.fees)
            opOk.block.fee_account).balances t
        = (stgT.replayed.tree opOk.block.fee_account).balances t
            + sumFeesFor (collectedFeesOf [.Transfer txT]) t) :=
  C3_fee_settlement_amended envT stOneTransfer opOk stgT [.Transfer txT] rfl rfl

end ProverServer

